import Mathlib

/-!
Verification of the DMD LED-matrix display library (src/DMD.h).

The repository ships only the header `DMD.h`, which declares the `DMD` class:
the framebuffer mirror `bDMDScreenRAM` (64 bytes, 32x16 one-bit pixels,
row-major, MSB-first), the five graphics modes, the drawing operations
(`writePixel`, `drawLine`, `drawBox`, `drawFilledBox`, `drawCircle`,
`drawCircleSub`) and the scan-driver entry point `scanDisplayBySPI`.
The member function bodies (DMD.cpp) are not part of the repository, so the
operations below are modelled from the specification, as flagged in each
doc comment.  The framebuffer is embedded at bit granularity: the packed
byte layout (byte `y*4 + x/8`, mask `0x80 >> (x%8)`) places pixel `(x,y)`
at overall bit position `32*y + x` of the 64-byte buffer, so a `List Bool`
of length 512 indexed by `32*y + x` is exactly the packed bitmap's bit
sequence in storage order.
-/

set_option maxHeartbeats 1000000
set_option maxRecDepth 8192

namespace DMD

/-- Pixels across the x axis, `DMD_PIXELS_ACROSS` in src/DMD.h. -/
def DMD_PIXELS_ACROSS : Nat := 32

/-- Pixels down the y axis, `DMD_PIXELS_DOWN` in src/DMD.h. -/
def DMD_PIXELS_DOWN : Nat := 16

/-- Bits per pixel, `DMD_BITSPERPIXEL` in src/DMD.h. -/
def DMD_BITSPERPIXEL : Nat := 1

/-- Buffer size in bytes, `DMD_RAM_SIZE_BYTES` in src/DMD.h: 64. -/
def DMD_RAM_SIZE_BYTES : Nat :=
  DMD_PIXELS_ACROSS * DMD_BITSPERPIXEL / 8 * DMD_PIXELS_DOWN

/-- Graphics mode `GRAPHICS_NORMAL` (src/DMD.h line 81). -/
def GRAPHICS_NORMAL : Nat := 0

/-- Graphics mode `GRAPHICS_INVERSE` (src/DMD.h line 82). -/
def GRAPHICS_INVERSE : Nat := 1

/-- Graphics mode `GRAPHICS_TOGGLE` (src/DMD.h line 83). -/
def GRAPHICS_TOGGLE : Nat := 2

/-- Graphics mode `GRAPHICS_OR` (src/DMD.h line 84). -/
def GRAPHICS_OR : Nat := 3

/-- Graphics mode `GRAPHICS_NOR` (src/DMD.h line 85). -/
def GRAPHICS_NOR : Nat := 4

/-- The eight single-bit masks of `bPixelLookupTable` in src/DMD.h,
indexed by `x % 8`, MSB first. -/
def bPixelLookupTable : List Nat := [0x80, 0x40, 0x20, 0x10, 0x08, 0x04, 0x02, 0x01]

/-- The framebuffer `bDMDScreenRAM`, embedded at bit granularity: entry
`32*y + x` is the bit of pixel `(x,y)` in the packed 64-byte layout. -/
abbrev FB := List Bool

/-- The all-off framebuffer: 512 cleared bits. -/
def blankFB : FB := List.replicate 512 false

/-- Read the bit of pixel `(bX,bY)`; out-of-bounds coordinates read as off.
Modelled from the spec: PixelBuffer `getPixel` over the row-major,
MSB-first packed layout declared in src/DMD.h. -/
def getPixel (bX bY : Nat) (fb : FB) : Bool :=
  if bX < DMD_PIXELS_ACROSS ∧ bY < DMD_PIXELS_DOWN then
    fb.getD (DMD_PIXELS_ACROSS * bY + bX) false
  else false

/-- The five-mode compositing table of the spec, destination bit `d`,
ink bit `s`; modes other than the five declared in src/DMD.h leave the
destination unchanged. -/
def modeApply (bGraphicsMode : Nat) (d s : Bool) : Bool :=
  match bGraphicsMode with
  | 0 => s
  | 1 => !s
  | 2 => xor d s
  | 3 => d || s
  | 4 => !(d || s)
  | _ => d

/-- Modelled from the spec: the body of `DMD::writePixel` (declared at
src/DMD.h lines 120-121) is not in the repository.  Per the spec it
composites the ink bit onto the destination bit of exactly pixel
`(bX,bY)` under the selected graphics mode, and out-of-range coordinates
are a silent no-op. -/
def writePixel (bX bY bGraphicsMode : Nat) (bPixel : Bool) (fb : FB) : FB :=
  if bX < DMD_PIXELS_ACROSS ∧ bY < DMD_PIXELS_DOWN then
    let i := DMD_PIXELS_ACROSS * bY + bX
    fb.set i (modeApply bGraphicsMode (fb.getD i false) bPixel)
  else fb

/-- Run a list of ink-on pixel writes through `writePixel` under one
graphics mode; every composite shape below is such a fold. -/
def runOn (bGraphicsMode : Nat) (ps : List (Nat × Nat)) (fb : FB) : FB :=
  ps.foldl (fun acc p => writePixel p.1 p.2 bGraphicsMode true acc) fb

/-- Bresenham steps along a major x axis: from `(x,y)` take `n` unit steps
in direction `sx`, stepping `y` by `sy` whenever the scaled error `frac`
is non-negative; `dx2` and `dy2` are the doubled axis deltas. -/
def bresStepsX (x y sx sy dx2 dy2 frac : Int) : Nat → List (Int × Int)
  | 0 => []
  | n + 1 =>
    let yn := if 0 ≤ frac then y + sy else y
    let fn := if 0 ≤ frac then frac - dx2 else frac
    let xn := x + sx
    (xn, yn) :: bresStepsX xn yn sx sy dx2 dy2 (fn + dy2) n

/-- Bresenham steps along a major y axis, mirror image of `bresStepsX`. -/
def bresStepsY (x y sx sy dx2 dy2 frac : Int) : Nat → List (Int × Int)
  | 0 => []
  | n + 1 =>
    let xn := if 0 ≤ frac then x + sx else x
    let fn := if 0 ≤ frac then frac - dy2 else frac
    let yn := y + sy
    (xn, yn) :: bresStepsY xn yn sx sy dx2 dy2 (fn + dx2) n

/-- Integer-only Bresenham rasterization from `(x1,y1)` to `(x2,y2)`:
the start point followed by one step per unit of the major axis delta. -/
def rasterFrom (x1 y1 x2 y2 : Int) : List (Int × Int) :=
  let dx := (x2 - x1).natAbs
  let dy := (y2 - y1).natAbs
  let sx : Int := if x1 ≤ x2 then 1 else -1
  let sy : Int := if y1 ≤ y2 then 1 else -1
  (x1, y1) ::
    (if dy ≤ dx then
      bresStepsX x1 y1 sx sy (2 * (dx : Int)) (2 * (dy : Int))
        (2 * (dy : Int) - (dx : Int)) dx
    else
      bresStepsY x1 y1 sx sy (2 * (dx : Int)) (2 * (dy : Int))
        (2 * (dx : Int) - (dy : Int)) dy)

/-- Modelled from the spec: the body of `DMD::drawLine` (declared at
src/DMD.h lines 133-134) is not in the repository.  Per the spec it is a
Bresenham integer rasterizer whose pixel set is the same regardless of
endpoint order; that symmetry is realised by rasterizing from the
lexicographically smaller endpoint. -/
def linePoints (x1 y1 x2 y2 : Nat) : List (Nat × Nat) :=
  let pts :=
    if x1 < x2 then rasterFrom x1 y1 x2 y2
    else if x2 < x1 then rasterFrom x2 y2 x1 y1
    else if y1 ≤ y2 then rasterFrom x1 y1 x2 y2
    else rasterFrom x2 y2 x1 y1
  pts.map (fun p => (p.1.toNat, p.2.toNat))

/-- Draw a line from `(x1,y1)` to `(x2,y2)` under the given mode: every
rasterized point is written through `writePixel` with ink on. -/
def drawLine (x1 y1 x2 y2 bGraphicsMode : Nat) (fb : FB) : FB :=
  runOn bGraphicsMode (linePoints x1 y1 x2 y2) fb

/-- Modelled from the spec: the outline of the normalized rectangle as
four line calls over its corners. -/
def boxPoints (x1 y1 x2 y2 : Nat) : List (Nat × Nat) :=
  let xa := min x1 x2
  let xb := max x1 x2
  let ya := min y1 y2
  let yb := max y1 y2
  linePoints xa ya xb ya ++ linePoints xb ya xb yb ++
    linePoints xb yb xa yb ++ linePoints xa yb xa ya

/-- Modelled from the spec: the body of `DMD::drawBox` (declared at
src/DMD.h lines 139-140) is not in the repository.  Per the spec it draws
the outline of the corner-normalized rectangle as four lines. -/
def drawBox (x1 y1 x2 y2 bGraphicsMode : Nat) (fb : FB) : FB :=
  runOn bGraphicsMode (boxPoints x1 y1 x2 y2) fb

/-- One raster row of a filled rectangle: `w` pixels at height `y`
starting at `xa`. -/
def rowPoints (y xa : Nat) : Nat → List (Nat × Nat)
  | 0 => []
  | w + 1 => (xa, y) :: rowPoints y (xa + 1) w

/-- All pixels of the `w`-by-`h` rectangle whose top-left corner is
`(xa,ya)`, row by row. -/
def rectPoints (xa w ya : Nat) : Nat → List (Nat × Nat)
  | 0 => []
  | h + 1 => rowPoints ya xa w ++ rectPoints xa w (ya + 1) h

/-- Modelled from the spec: the body of `DMD::drawFilledBox` (declared at
src/DMD.h lines 142-143) is not in the repository.  Per the spec it writes
every pixel of the normalized rectangle, borders included, through the
same per-pixel mode semantics as `writePixel`. -/
def drawFilledBox (x1 y1 x2 y2 bGraphicsMode : Nat) (fb : FB) : FB :=
  runOn bGraphicsMode
    (rectPoints (min x1 x2) (max x1 x2 + 1 - min x1 x2)
      (min y1 y2) (max y1 y2 + 1 - min y1 y2)) fb

/-- Modelled from the spec: `DMD::drawCircleSub` (declared at src/DMD.h
line 154) plots the 8 symmetric reflections of an octant point about the
centre. -/
def drawCircleSub (cx cy x y : Int) : List (Int × Int) :=
  [(cx + x, cy + y), (cx + x, cy - y), (cx - x, cy + y), (cx - x, cy - y),
    (cx + y, cy + x), (cx + y, cy - x), (cx - y, cy + x), (cx - y, cy - x)]

/-- Midpoint circle loop: walk the first octant from `(x,y)` with decision
value `d`, emitting the 8-way reflections at each step; `fuel` bounds the
iteration count (the octant has at most `r + 1` points). -/
def circleLoop (cx cy x y d : Int) : Nat → List (Int × Int)
  | 0 => []
  | fuel + 1 =>
    if x ≤ y then
      drawCircleSub cx cy x y ++
        (if d < 0 then circleLoop cx cy (x + 1) y (d + 4 * x + 6) fuel
        else circleLoop cx cy (x + 1) (y - 1) (d + 4 * (x - y) + 10) fuel)
    else []

/-- Modelled from the spec: the midpoint circle point set; a zero radius
degenerates to the single centre point and a negative radius to the empty
set, per the spec's requirement that r ≤ 0 be a degenerate point or
no-op. -/
def circlePoints (cx cy r : Int) : List (Int × Int) :=
  if r ≤ 0 then (if r = 0 then [(cx, cy)] else [])
  else circleLoop cx cy 0 r (3 - 2 * r) (r.toNat + 1)

/-- Implicit C narrowing of an `int` argument to the `byte` parameters
declared in src/DMD.h: reduction modulo 256. -/
def toByte (n : Int) : Nat := (n % 256).toNat

/-- Modelled from the spec: the body of `DMD::drawCircle` (declared at
src/DMD.h lines 136-137) is not in the repository.  Per the spec it writes
the midpoint circle's points through `writePixel`, whose byte parameters
narrow each int coordinate modulo 256. -/
def drawCircle (xCenter yCenter radius : Int) (bGraphicsMode : Nat) (fb : FB) : FB :=
  runOn bGraphicsMode
    ((circlePoints xCenter yCenter radius).map (fun p => (toByte p.1, toByte p.2))) fb

/-- An int-coordinate caller of `writePixel`: C narrows each coordinate
to the declared `byte` parameter modulo 256 before any bounds check. -/
def writePixelI (x y : Int) (bGraphicsMode : Nat) (bPixel : Bool) (fb : FB) : FB :=
  writePixel (toByte x) (toByte y) bGraphicsMode bPixel fb

/-- An int-coordinate caller of `drawLine`, narrowing modulo 256. -/
def drawLineI (x1 y1 x2 y2 : Int) (bGraphicsMode : Nat) (fb : FB) : FB :=
  drawLine (toByte x1) (toByte y1) (toByte x2) (toByte y2) bGraphicsMode fb

/-- An int-coordinate caller of `drawBox`, narrowing modulo 256. -/
def drawBoxI (x1 y1 x2 y2 : Int) (bGraphicsMode : Nat) (fb : FB) : FB :=
  drawBox (toByte x1) (toByte y1) (toByte x2) (toByte y2) bGraphicsMode fb

/-- An int-coordinate caller of `drawFilledBox`, narrowing modulo 256. -/
def drawFilledBoxI (x1 y1 x2 y2 : Int) (bGraphicsMode : Nat) (fb : FB) : FB :=
  drawFilledBox (toByte x1) (toByte y1) (toByte x2) (toByte y2) bGraphicsMode fb

/-- Signals emitted to the panel interface during one scan step: the
illumination enable (OE), serial byte shift-out, the shift-register latch
pulse and the row-address select lines. -/
inductive PanelEvent where
  | oeOff : PanelEvent
  | shiftByte : Nat → PanelEvent
  | latch : PanelEvent
  | rowSelect : Nat → PanelEvent
  | oeOn : PanelEvent
deriving DecidableEq

/-- The driver state: the framebuffer mirror `bDMDScreenRAM` and the
row-group phase cursor abstracted from the scanning pointer `bDMDByte`
(src/DMD.h lines 159-160), a value in [0,3] per the spec. -/
structure DMDState where
  bDMDScreenRAM : FB
  phase : Nat
deriving DecidableEq

/-- Physical rows covered by the row-group at phase `p`: every 4th row. -/
def rowGroupRows (p : Nat) : List Nat := [p, p + 4, p + 8, p + 12]

/-- Pack 8 framebuffer bits of row `r` starting at column `8*k` into one
byte, MSB first, using the masks of `bPixelLookupTable`. -/
def packByte (fb : FB) (r k : Nat) : Nat :=
  (List.range 8).foldl
    (fun acc i =>
      acc + (if getPixel (8 * k + i) r fb then bPixelLookupTable.getD i 0 else 0)) 0

/-- The 4 bytes of framebuffer row `r` in storage order. -/
def rowBytes (fb : FB) (r : Nat) : List Nat :=
  [packByte fb r 0, packByte fb r 1, packByte fb r 2, packByte fb r 3]

/-- The 16 bytes shifted out for the row-group at phase `p`: the bytes of
rows `p`, `p+4`, `p+8`, `p+12`. -/
def rowGroupBytes (fb : FB) (p : Nat) : List Nat :=
  rowBytes fb p ++ rowBytes fb (p + 4) ++ rowBytes fb (p + 8) ++ rowBytes fb (p + 12)

/-- Modelled from the spec: the body of `DMD::scanDisplayBySPI` (declared
at src/DMD.h lines 148-151) is not in the repository.  Per the spec, when
the shared bus is free one step emits, in order: illumination OFF, the
current row-group's bytes, the latch pulse, the row-address select,
illumination ON, and then advances the phase cursor modulo 4; when the
bus-contention condition `PIN_OTHER_SPI_nCS` is signalled the step is
skipped entirely. -/
def scanDisplayBySPI (busFree : Bool) (st : DMDState) : DMDState × List PanelEvent :=
  if busFree then
    (⟨st.bDMDScreenRAM, (st.phase + 1) % 4⟩,
      PanelEvent.oeOff ::
        (rowGroupBytes st.bDMDScreenRAM st.phase).map PanelEvent.shiftByte ++
          [PanelEvent.latch, PanelEvent.rowSelect st.phase, PanelEvent.oeOn])
  else (st, [])

/-- Iterate uncontended scan steps. -/
def scanIter : Nat → DMDState → DMDState
  | 0, st => st
  | n + 1, st => scanIter n (scanDisplayBySPI true st).1

/-- Concatenated trace of `n` consecutive uncontended scan steps. -/
def scanTraceN : Nat → DMDState → List PanelEvent
  | 0, _ => []
  | n + 1, st =>
    (scanDisplayBySPI true st).2 ++ scanTraceN n (scanDisplayBySPI true st).1

/-- Physical rows addressed in a trace: each row-select of phase `p`
addresses the 4 rows of its row-group. -/
def rowsOfTrace : List PanelEvent → List Nat
  | [] => []
  | PanelEvent.oeOff :: tr => rowsOfTrace tr
  | PanelEvent.shiftByte _ :: tr => rowsOfTrace tr
  | PanelEvent.latch :: tr => rowsOfTrace tr
  | PanelEvent.rowSelect p :: tr => rowGroupRows p ++ rowsOfTrace tr
  | PanelEvent.oeOn :: tr => rowsOfTrace tr

theorem length_writePixel (bX bY m : Nat) (s : Bool) (fb : FB) :
    (writePixel bX bY m s fb).length = fb.length := by
  unfold writePixel
  split <;> simp

theorem pixelIndex_inj {x y a b : Nat} (hx : x < 32) (ha : a < 32) :
    32 * y + x = 32 * b + a → x = a ∧ y = b := by
  omega

theorem list_set_getD_self (l : List Bool) (i : Nat) :
    l.set i (l.getD i false) = l := by
  induction l generalizing i with
  | nil => rfl
  | cons hd tl ih =>
    cases i with
    | zero => simp
    | succ j => simpa using ih j

theorem getPixel_writePixel_self (bX bY m : Nat) (s : Bool) (fb : FB)
    (hx : bX < 32) (hy : bY < 16) (hlen : fb.length = 512) :
    getPixel bX bY (writePixel bX bY m s fb) =
      modeApply m (getPixel bX bY fb) s := by
  have hi : 32 * bY + bX < 512 := by omega
  unfold getPixel writePixel DMD_PIXELS_ACROSS DMD_PIXELS_DOWN
  simp only [if_pos (And.intro hx hy)]
  rw [List.getD_eq_getElem?_getD, List.getElem?_set_self (by simpa [hlen] using hi)]
  simp

theorem getD_writePixel_ne (bX bY m : Nat) (s : Bool) (fb : FB)
    (k : Nat) (hk : k ≠ 32 * bY + bX) :
    (writePixel bX bY m s fb).getD k false = fb.getD k false := by
  unfold writePixel DMD_PIXELS_ACROSS DMD_PIXELS_DOWN
  split
  · simp only []
    rw [List.getD_eq_getElem?_getD, List.getElem?_set_ne (Ne.symm hk),
      List.getD_eq_getElem?_getD]
  · rfl

theorem getPixel_writePixel_ne (bX bY x y m : Nat) (s : Bool) (fb : FB)
    (hne : ¬(x = bX ∧ y = bY)) :
    getPixel x y (writePixel bX bY m s fb) = getPixel x y fb := by
  by_cases hin : x < DMD_PIXELS_ACROSS ∧ y < DMD_PIXELS_DOWN
  · by_cases hwin : bX < DMD_PIXELS_ACROSS ∧ bY < DMD_PIXELS_DOWN
    · have hk : 32 * y + x ≠ 32 * bY + bX := by
        intro h
        exact hne (pixelIndex_inj hin.1 hwin.1 h)
      unfold getPixel
      simp only [if_pos hin]
      exact getD_writePixel_ne bX bY m s fb _ hk
    · unfold writePixel
      rw [if_neg hwin]
  · unfold getPixel
    rw [if_neg hin, if_neg hin]

/-- C1: for every in-bounds coordinate, ink bit and graphics mode,
`writePixel` updates the destination bit of exactly that pixel by the
five-mode table (NORMAL `d = s`, INVERSE `d = NOT s`, TOGGLE
`d = d XOR s`, OR `d = d OR s`, NOR `d = NOT (d OR s)`), and no other
bit of the framebuffer changes. -/
theorem writePixel_five_mode_table (bX bY : Nat) (s : Bool) (fb : FB)
    (hx : bX < 32) (hy : bY < 16) (hlen : fb.length = 512) :
    getPixel bX bY (writePixel bX bY GRAPHICS_NORMAL s fb) = s ∧
    getPixel bX bY (writePixel bX bY GRAPHICS_INVERSE s fb) = !s ∧
    getPixel bX bY (writePixel bX bY GRAPHICS_TOGGLE s fb) =
      xor (getPixel bX bY fb) s ∧
    getPixel bX bY (writePixel bX bY GRAPHICS_OR s fb) =
      (getPixel bX bY fb || s) ∧
    getPixel bX bY (writePixel bX bY GRAPHICS_NOR s fb) =
      !(getPixel bX bY fb || s) ∧
    ∀ m k, k ≠ 32 * bY + bX →
      (writePixel bX bY m s fb).getD k false = fb.getD k false := by
  refine ⟨?_, ?_, ?_, ?_, ?_, ?_⟩
  · rw [getPixel_writePixel_self bX bY _ s fb hx hy hlen]; rfl
  · rw [getPixel_writePixel_self bX bY _ s fb hx hy hlen]; rfl
  · rw [getPixel_writePixel_self bX bY _ s fb hx hy hlen]; rfl
  · rw [getPixel_writePixel_self bX bY _ s fb hx hy hlen]; rfl
  · rw [getPixel_writePixel_self bX bY _ s fb hx hy hlen]; rfl
  · intro m k hk
    exact getD_writePixel_ne bX bY m s fb k hk

/-- Witness for C1 at pixel (3,2), ink on, blank framebuffer. -/
theorem writePixel_five_mode_table_witness :
    (3 : Nat) < 32 ∧ (2 : Nat) < 16 ∧ blankFB.length = 512 ∧
    getPixel 3 2 (writePixel 3 2 GRAPHICS_NORMAL true blankFB) = true :=
  ⟨by decide, by decide, by simp [blankFB],
    (writePixel_five_mode_table 3 2 true blankFB (by decide) (by decide)
      (by simp [blankFB])).1⟩

/-- C5: for every coordinate with `x ≥ 32` or `y ≥ 16`, every graphics
mode and every ink bit, `writePixel` is a silent no-op leaving the whole
framebuffer unchanged. -/
theorem writePixel_out_of_range_noop (bX bY m : Nat) (s : Bool) (fb : FB)
    (h : 32 ≤ bX ∨ 16 ≤ bY) :
    writePixel bX bY m s fb = fb := by
  unfold writePixel DMD_PIXELS_ACROSS DMD_PIXELS_DOWN
  rw [if_neg]
  omega

/-- Witness for C5 at the just-off-panel coordinate (32,0). -/
theorem writePixel_out_of_range_noop_witness :
    (32 ≤ 32 ∨ 16 ≤ 0) ∧
    writePixel 32 0 GRAPHICS_NORMAL true blankFB = blankFB :=
  ⟨Or.inl (by decide),
    writePixel_out_of_range_noop 32 0 GRAPHICS_NORMAL true blankFB
      (Or.inl (by decide))⟩

theorem runOn_nil (m : Nat) (fb : FB) : runOn m [] fb = fb := rfl

theorem runOn_cons (m : Nat) (p : Nat × Nat) (ps : List (Nat × Nat)) (fb : FB) :
    runOn m (p :: ps) fb = runOn m ps (writePixel p.1 p.2 m true fb) := rfl

theorem linePoints_symm (x1 y1 x2 y2 : Nat) :
    linePoints x1 y1 x2 y2 = linePoints x2 y2 x1 y1 := by
  unfold linePoints
  split_ifs <;>
    first
      | rfl
      | (exfalso; omega)
      | (have hx : x1 = x2 := by omega
         have hy : y1 = y2 := by omega
         subst hx
         subst hy
         rfl)

/-- C6: `drawLine` produces identical framebuffers regardless of endpoint
order, for every pair of endpoints and every starting framebuffer. -/
theorem drawLine_endpoint_symm (x1 y1 x2 y2 : Nat) (fb : FB) :
    drawLine x1 y1 x2 y2 GRAPHICS_NORMAL fb =
      drawLine x2 y2 x1 y1 GRAPHICS_NORMAL fb := by
  unfold drawLine
  rw [linePoints_symm]

theorem bool_xor_rot (d s t : Bool) : xor (xor d t) s = xor (xor d s) t := by
  cases d <;> cases s <;> cases t <;> rfl

theorem getD_of_len_le (l : List Bool) (i : Nat) (h : l.length ≤ i) :
    l.getD i false = false := by
  rw [List.getD_eq_getElem?_getD, List.getElem?_eq_none h]
  rfl

theorem getElem?_writePixel (bX bY m : Nat) (s : Bool) (fb : FB) (k : Nat) :
    (writePixel bX bY m s fb)[k]? =
      if bX < 32 ∧ bY < 16 ∧ k = 32 * bY + bX ∧ k < fb.length then
        some (modeApply m (fb.getD k false) s)
      else fb[k]? := by
  unfold writePixel DMD_PIXELS_ACROSS DMD_PIXELS_DOWN
  split
  · rename_i h
    rw [List.getElem?_set]
    by_cases hk : 32 * bY + bX = k
    · subst hk
      by_cases hl : 32 * bY + bX < fb.length
      · rw [if_pos rfl, if_pos hl, if_pos ⟨h.1, h.2, rfl, hl⟩]
      · rw [if_pos rfl, if_neg hl, if_neg (fun hc => hl hc.2.2.2),
          List.getElem?_eq_none (by omega)]
    · rw [if_neg hk, if_neg (fun hc => hk hc.2.2.1.symm)]
  · rename_i h
    rw [if_neg (fun hc => h ⟨hc.1, hc.2.1⟩)]

theorem getD_writePixel (bX bY m : Nat) (s : Bool) (fb : FB) (k : Nat) :
    (writePixel bX bY m s fb).getD k false =
      if bX < 32 ∧ bY < 16 ∧ k = 32 * bY + bX ∧ k < fb.length then
        modeApply m (fb.getD k false) s
      else fb.getD k false := by
  rw [List.getD_eq_getElem?_getD, getElem?_writePixel]
  split
  · rfl
  · rw [List.getD_eq_getElem?_getD]

theorem writePixel_toggle_comm (x y a b : Nat) (s t : Bool) (fb : FB) :
    writePixel x y 2 s (writePixel a b 2 t fb) =
      writePixel a b 2 t (writePixel x y 2 s fb) := by
  apply List.ext_getElem?
  intro n
  rw [getElem?_writePixel, getElem?_writePixel, getElem?_writePixel,
    getElem?_writePixel, getD_writePixel, getD_writePixel]
  simp only [length_writePixel]
  split_ifs <;>
    first
      | rfl
      | (simp only [modeApply]; rw [bool_xor_rot])

theorem writePixel_toggle_self (x y : Nat) (s : Bool) (fb : FB) :
    writePixel x y 2 s (writePixel x y 2 s fb) = fb := by
  apply List.ext_getElem?
  intro n
  rw [getElem?_writePixel, getElem?_writePixel, getD_writePixel]
  simp only [length_writePixel]
  split_ifs with h1
  · simp only [modeApply]
    have hc : xor (xor (fb.getD n false) s) s = fb.getD n false := by
      cases fb.getD n false <;> cases s <;> rfl
    rw [hc, List.getD_eq_getElem?_getD, List.getElem?_eq_getElem h1.2.2.2]
    rfl
  · rfl

theorem writePixel_toggle_runOn_comm (x y : Nat) (ps : List (Nat × Nat)) (fb : FB) :
    writePixel x y 2 true (runOn 2 ps fb) = runOn 2 ps (writePixel x y 2 true fb) := by
  induction ps generalizing fb with
  | nil => rfl
  | cons p ps ih =>
    rw [runOn_cons, runOn_cons, ih, writePixel_toggle_comm]

theorem runOn_toggle_invol (ps : List (Nat × Nat)) (fb : FB) :
    runOn 2 ps (runOn 2 ps fb) = fb := by
  induction ps generalizing fb with
  | nil => rfl
  | cons p ps ih =>
    rw [runOn_cons, runOn_cons, ← writePixel_toggle_runOn_comm, ih,
      writePixel_toggle_self]

/-- C7: every drawing operation applied twice in TOGGLE mode with the
same shape arguments restores the framebuffer: `writePixel`, `drawLine`,
`drawBox`, `drawFilledBox` and `drawCircle` are involutions under
`GRAPHICS_TOGGLE`. -/
theorem toggle_involution :
    (∀ x y : Nat, ∀ s : Bool, ∀ fb : FB,
      writePixel x y GRAPHICS_TOGGLE s (writePixel x y GRAPHICS_TOGGLE s fb) = fb) ∧
    (∀ x1 y1 x2 y2 : Nat, ∀ fb : FB,
      drawLine x1 y1 x2 y2 GRAPHICS_TOGGLE
        (drawLine x1 y1 x2 y2 GRAPHICS_TOGGLE fb) = fb) ∧
    (∀ x1 y1 x2 y2 : Nat, ∀ fb : FB,
      drawBox x1 y1 x2 y2 GRAPHICS_TOGGLE
        (drawBox x1 y1 x2 y2 GRAPHICS_TOGGLE fb) = fb) ∧
    (∀ x1 y1 x2 y2 : Nat, ∀ fb : FB,
      drawFilledBox x1 y1 x2 y2 GRAPHICS_TOGGLE
        (drawFilledBox x1 y1 x2 y2 GRAPHICS_TOGGLE fb) = fb) ∧
    (∀ cx cy r : Int, ∀ fb : FB,
      drawCircle cx cy r GRAPHICS_TOGGLE
        (drawCircle cx cy r GRAPHICS_TOGGLE fb) = fb) := by
  refine ⟨fun x y s fb => writePixel_toggle_self x y s fb,
    fun x1 y1 x2 y2 fb => runOn_toggle_invol _ fb,
    fun x1 y1 x2 y2 fb => runOn_toggle_invol _ fb,
    fun x1 y1 x2 y2 fb => runOn_toggle_invol _ fb,
    fun cx cy r fb => runOn_toggle_invol _ fb⟩

theorem getPixel_runOn_not_mem (m : Nat) (ps : List (Nat × Nat)) (x y : Nat) :
    ∀ fb : FB, (x, y) ∉ ps →
      getPixel x y (runOn m ps fb) = getPixel x y fb := by
  induction ps with
  | nil => intro fb _; rfl
  | cons p ps ih =>
    intro fb h
    rw [runOn_cons, ih _ (fun hm => h (List.mem_cons_of_mem _ hm)),
      getPixel_writePixel_ne]
    intro hc
    apply h
    have hpe : (x, y) = p := by
      rcases hc with ⟨h1, h2⟩
      rw [h1, h2]
    rw [hpe]
    exact List.mem_cons_self _ _

theorem length_runOn (m : Nat) (ps : List (Nat × Nat)) :
    ∀ fb : FB, (runOn m ps fb).length = fb.length := by
  induction ps with
  | nil => intro fb; rfl
  | cons p ps ih =>
    intro fb
    rw [runOn_cons, ih, length_writePixel]

theorem getPixel_runOn_mem_once (m x y : Nat) :
    ∀ (ps : List (Nat × Nat)) (fb : FB), ps.Nodup → (x, y) ∈ ps →
      x < 32 → y < 16 → fb.length = 512 →
      getPixel x y (runOn m ps fb) = modeApply m (getPixel x y fb) true := by
  intro ps
  induction ps with
  | nil => intro fb _ hmem; cases hmem
  | cons p ps ih =>
    intro fb hnd hmem hx hy hlen
    obtain ⟨px, py⟩ := p
    rw [runOn_cons]
    rcases List.mem_cons.mp hmem with heq | hmem2
    · injection heq with h1 h2
      subst h1
      subst h2
      have hnot : (x, y) ∉ ps := (List.nodup_cons.mp hnd).1
      rw [getPixel_runOn_not_mem m ps x y _ hnot]
      exact getPixel_writePixel_self x y m true fb hx hy hlen
    · rw [ih (writePixel px py m true fb) (List.nodup_cons.mp hnd).2 hmem2 hx hy
        (by rw [length_writePixel]; exact hlen), getPixel_writePixel_ne]
      intro hc
      apply (List.nodup_cons.mp hnd).1
      rcases hc with ⟨h1, h2⟩
      rw [h1, h2] at hmem2
      exact hmem2

theorem mem_rowPoints (y0 : Nat) (p : Nat × Nat) :
    ∀ xa w : Nat, p ∈ rowPoints y0 xa w ↔ p.2 = y0 ∧ xa ≤ p.1 ∧ p.1 < xa + w := by
  intro xa w
  induction w generalizing xa with
  | zero =>
    simp only [rowPoints, List.not_mem_nil, false_iff]
    omega
  | succ w ih =>
    simp only [rowPoints, List.mem_cons, ih, Prod.ext_iff]
    omega

theorem nodup_rowPoints (y0 : Nat) : ∀ xa w : Nat, (rowPoints y0 xa w).Nodup := by
  intro xa w
  induction w generalizing xa with
  | zero => exact List.nodup_nil
  | succ w ih =>
    rw [rowPoints, List.nodup_cons]
    refine ⟨?_, ih (xa + 1)⟩
    rw [mem_rowPoints]
    simp only []
    omega

theorem mem_rectPoints (xa w : Nat) (p : Nat × Nat) :
    ∀ ya h : Nat, p ∈ rectPoints xa w ya h ↔
      xa ≤ p.1 ∧ p.1 < xa + w ∧ ya ≤ p.2 ∧ p.2 < ya + h := by
  intro ya h
  induction h generalizing ya with
  | zero =>
    simp only [rectPoints, List.not_mem_nil, false_iff]
    omega
  | succ h ih =>
    simp only [rectPoints, List.mem_append, mem_rowPoints, ih]
    omega

theorem nodup_rectPoints (xa w : Nat) : ∀ ya h : Nat, (rectPoints xa w ya h).Nodup := by
  intro ya h
  induction h generalizing ya with
  | zero => exact List.nodup_nil
  | succ h ih =>
    rw [rectPoints, List.nodup_append]
    refine ⟨nodup_rowPoints _ _ _, ih (ya + 1), ?_⟩
    intro p hp hp2
    rw [mem_rowPoints] at hp
    rw [mem_rectPoints] at hp2
    omega

/-- C8: for every pair of opposite corners in any ordering,
`drawFilledBox` applies the per-pixel mode semantics of `writePixel` to
exactly the pixels of the normalized rectangle, both edges inclusive, and
to no other pixel. -/
theorem drawFilledBox_exact (x1 y1 x2 y2 m : Nat) (fb : FB) (x y : Nat)
    (hlen : fb.length = 512) :
    getPixel x y (drawFilledBox x1 y1 x2 y2 m fb) =
      if min x1 x2 ≤ x ∧ x ≤ max x1 x2 ∧ min y1 y2 ≤ y ∧ y ≤ max y1 y2 ∧
          x < 32 ∧ y < 16 then
        modeApply m (getPixel x y fb) true
      else getPixel x y fb := by
  unfold drawFilledBox
  split_ifs with hin
  · refine getPixel_runOn_mem_once m x y _ fb (nodup_rectPoints _ _ _ _) ?_
      hin.2.2.2.2.1 hin.2.2.2.2.2 hlen
    rw [mem_rectPoints]
    simp only []
    omega
  · by_cases hb : x < 32 ∧ y < 16
    · apply getPixel_runOn_not_mem
      rw [mem_rectPoints]
      simp only []
      omega
    · have hb' : ¬(x < DMD_PIXELS_ACROSS ∧ y < DMD_PIXELS_DOWN) := hb
      unfold getPixel
      rw [if_neg hb', if_neg hb']

/-- Witness for C8: corners (1,1) and (2,2), probe pixel (1,2), NORMAL
mode, blank framebuffer. -/
theorem drawFilledBox_exact_witness :
    blankFB.length = 512 ∧
    getPixel 1 2 (drawFilledBox 1 1 2 2 GRAPHICS_NORMAL blankFB) =
      if min 1 2 ≤ 1 ∧ 1 ≤ max 1 2 ∧ min 1 2 ≤ 2 ∧ 2 ≤ max 1 2 ∧
          1 < 32 ∧ 2 < 16 then
        modeApply GRAPHICS_NORMAL (getPixel 1 2 blankFB) true
      else getPixel 1 2 blankFB :=
  ⟨by simp [blankFB],
    drawFilledBox_exact 1 1 2 2 GRAPHICS_NORMAL blankFB 1 2 (by simp [blankFB])⟩

/-- C9: `drawCircle` is total (a Lean function never crashes) and treats
r ≤ 0 as the documented degenerate cases: r = 0 draws the single centre
pixel and a negative radius is a no-op. -/
theorem drawCircle_degenerate (cx cy : Int) (m : Nat) (fb : FB) :
    drawCircle cx cy 0 m fb = writePixel (toByte cx) (toByte cy) m true fb ∧
    ∀ r : Int, r < 0 → drawCircle cx cy r m fb = fb := by
  constructor
  · unfold drawCircle circlePoints
    rw [if_pos (le_refl (0 : Int)), if_pos rfl]
    rfl
  · intro r hr
    unfold drawCircle circlePoints
    rw [if_pos (le_of_lt hr), if_neg (by omega)]
    rfl

/-- Witness for C9: radius -1 at centre (5,5) leaves a blank buffer blank. -/
theorem drawCircle_degenerate_witness :
    (-1 : Int) < 0 ∧ drawCircle 5 5 (-1) GRAPHICS_NORMAL blankFB = blankFB :=
  ⟨by decide,
    (drawCircle_degenerate 5 5 GRAPHICS_NORMAL blankFB).2 (-1) (by decide)⟩

/-- C10: the drawing operations take their coordinates as unsigned bytes,
so a caller-supplied coordinate is reduced modulo 256 before any bounds
check: -1 arrives as 255 and is treated as a far off-panel position (the
`writePixel` call is a no-op, and a line from x = -1 really starts at
x = 255, so it does not light the pixels just past the left edge), not as
a point adjacent to the edge. -/
theorem byte_coordinate_narrowing :
    toByte (-1) = 255 ∧
    32 ≤ toByte (-1) ∧
    (∀ (y : Int) (m : Nat) (s : Bool) (fb : FB), writePixelI (-1) y m s fb = fb) ∧
    getPixel 25 0 (drawLineI (-1) 0 20 0 GRAPHICS_NORMAL blankFB) = true ∧
    getPixel 10 0 (drawLineI (-1) 0 20 0 GRAPHICS_NORMAL blankFB) = false ∧
    (∀ (m : Nat) (fb : FB), drawBoxI (-1) 0 2 2 m fb = drawBox 255 0 2 2 m fb) ∧
    (∀ (m : Nat) (fb : FB),
      drawFilledBoxI (-1) 0 2 2 m fb = drawFilledBox 255 0 2 2 m fb) := by
  refine ⟨by decide, by decide, ?_, by decide, by decide,
    fun m fb => rfl, fun m fb => rfl⟩
  intro y m s fb
  unfold writePixelI
  exact writePixel_out_of_range_noop _ _ m s fb (Or.inl (by decide))

theorem rowsOfTrace_append (t1 t2 : List PanelEvent) :
    rowsOfTrace (t1 ++ t2) = rowsOfTrace t1 ++ rowsOfTrace t2 := by
  induction t1 with
  | nil => rfl
  | cons e t ih => cases e <;> simp [rowsOfTrace, ih]

theorem rowsOfTrace_shift_prefix (bs : List Nat) (tr : List PanelEvent) :
    rowsOfTrace (bs.map PanelEvent.shiftByte ++ tr) = rowsOfTrace tr := by
  induction bs with
  | nil => rfl
  | cons b bs ih => simpa [rowsOfTrace] using ih

theorem rowsOfTrace_step (st : DMDState) :
    rowsOfTrace (scanDisplayBySPI true st).2 = rowGroupRows st.phase := by
  have hst : (scanDisplayBySPI true st).2 =
      PanelEvent.oeOff ::
        (rowGroupBytes st.bDMDScreenRAM st.phase).map PanelEvent.shiftByte ++
          [PanelEvent.latch, PanelEvent.rowSelect st.phase, PanelEvent.oeOn] := rfl
  rw [hst]
  simp only [rowsOfTrace, rowsOfTrace_shift_prefix, List.append_nil]

/-- C3: a scan step invoked under bus contention changes nothing: no
events are emitted, the phase cursor and the framebuffer are untouched,
no error is returned (the step's result type has no error channel), and
the next uncontended invocation emits exactly the trace the skipped one
would have emitted, retrying the same row-group. -/
theorem scanDisplayBySPI_contended_skip (st : DMDState) :
    scanDisplayBySPI false st = (st, []) ∧
    (scanDisplayBySPI false st).1.phase = st.phase ∧
    (scanDisplayBySPI false st).1.bDMDScreenRAM = st.bDMDScreenRAM ∧
    (scanDisplayBySPI true (scanDisplayBySPI false st).1).2 =
      (scanDisplayBySPI true st).2 :=
  ⟨rfl, rfl, rfl, rfl⟩

/-- C4: one uncontended scan step emits exactly, in order: illumination
OFF, the current row-group's bytes, the latch pulse, the row-address
select, illumination ON; the phase advance comes last (it is visible only
in the returned state).  In particular illumination is OFF (trace head)
before the row-address select and ON only after the latch. -/
theorem scanDisplayBySPI_step_order (st : DMDState) :
    (scanDisplayBySPI true st).2 =
      PanelEvent.oeOff ::
        (rowGroupBytes st.bDMDScreenRAM st.phase).map PanelEvent.shiftByte ++
          [PanelEvent.latch, PanelEvent.rowSelect st.phase, PanelEvent.oeOn] ∧
    (scanDisplayBySPI true st).2.head? = some PanelEvent.oeOff ∧
    (scanDisplayBySPI true st).2.getLast? = some PanelEvent.oeOn ∧
    (scanDisplayBySPI true st).1.phase = (st.phase + 1) % 4 := by
  refine ⟨rfl, rfl, ?_, rfl⟩
  have hst : (scanDisplayBySPI true st).2 =
      (PanelEvent.oeOff ::
        (rowGroupBytes st.bDMDScreenRAM st.phase).map PanelEvent.shiftByte ++
          [PanelEvent.latch, PanelEvent.rowSelect st.phase]) ++
        [PanelEvent.oeOn] := by
    rw [show ∀ l1 l2 : List PanelEvent, (PanelEvent.oeOff :: l1) ++ l2 =
        PanelEvent.oeOff :: (l1 ++ l2) from fun l1 l2 => rfl]
    simp [scanDisplayBySPI]
  rw [hst, List.getLast?_concat]

theorem scanIter_phase_lt (n : Nat) : ∀ st : DMDState, st.phase < 4 →
    scanIter n st = ⟨st.bDMDScreenRAM, (st.phase + n) % 4⟩ := by
  induction n with
  | zero =>
    intro st h
    obtain ⟨ram, ph⟩ := st
    have hlt : ph < 4 := h
    simp only [scanIter, DMDState.mk.injEq, true_and]
    omega
  | succ n ih =>
    intro st h
    rw [show scanIter (n + 1) st =
        scanIter n ⟨st.bDMDScreenRAM, (st.phase + 1) % 4⟩ from rfl,
      ih _ (Nat.mod_lt _ (by omega))]
    simp only [DMDState.mk.injEq, true_and]
    omega

theorem scanTraceN_four (st : DMDState) :
    scanTraceN 4 st =
      (scanDisplayBySPI true st).2 ++
        ((scanDisplayBySPI true (scanIter 1 st)).2 ++
          ((scanDisplayBySPI true (scanIter 2 st)).2 ++
            ((scanDisplayBySPI true (scanIter 3 st)).2 ++ []))) := rfl

/-- C2: with the bus free, the phase cursor stays in [0,3] and advances
by one row-group per step, the row-group at phase p covers physical rows
p, p+4, p+8, p+12, and 4 consecutive uncontended steps return the cursor
to its start with every one of the 16 physical rows addressed exactly
once. -/
theorem scan_phase_cycle (st : DMDState) (r : Nat) (h4 : st.phase < 4)
    (hr : r < 16) :
    (scanDisplayBySPI true st).1.phase = (st.phase + 1) % 4 ∧
    (scanDisplayBySPI true st).1.phase < 4 ∧
    rowGroupRows st.phase =
      [st.phase, st.phase + 4, st.phase + 8, st.phase + 12] ∧
    scanIter 4 st = st ∧
    (rowsOfTrace (scanTraceN 4 st)).count r = 1 := by
  obtain ⟨ram, ph⟩ := st
  have h4' : ph < 4 := h4
  refine ⟨rfl, Nat.mod_lt _ (by omega), rfl, ?_, ?_⟩
  · rw [scanIter_phase_lt 4 _ h4]
    simp only [DMDState.mk.injEq, true_and]
    omega
  · rw [scanTraceN_four, rowsOfTrace_append, rowsOfTrace_append,
      rowsOfTrace_append, rowsOfTrace_append, rowsOfTrace_step,
      rowsOfTrace_step, rowsOfTrace_step, rowsOfTrace_step,
      scanIter_phase_lt 1 _ h4, scanIter_phase_lt 2 _ h4,
      scanIter_phase_lt 3 _ h4]
    simp only [rowsOfTrace, List.append_nil, rowGroupRows]
    interval_cases ph <;> (interval_cases r <;> decide)

/-- Witness for C2: the 4-step cycle from phase 0 on a blank buffer
addresses row 7 exactly once. -/
theorem scan_phase_cycle_witness :
    (DMDState.mk blankFB 0).phase < 4 ∧ (7 : Nat) < 16 ∧
    (rowsOfTrace (scanTraceN 4 (DMDState.mk blankFB 0))).count 7 = 1 :=
  ⟨by decide, by decide,
    (scan_phase_cycle (DMDState.mk blankFB 0) 7 (by decide) (by decide)).2.2.2.2⟩

end DMD
